import Mathlib

/-!
Shallow embedding of `src/bsg.py` (BSG Magazine product tracker).

Python strings are modelled as Lean `String` (sequences of Unicode code
points, so `len` agrees with `String.length`), Python `int` as `Int`,
raised exceptions as `Option`/`Except` results, and HTML documents as
explicit node trees with the CSS queries the source performs implemented
over them.  Character-class tests (`str.isdigit`, whitespace stripping,
the regex class `\d`) are modelled over ASCII.
-/

namespace BSG

/-- ASCII whitespace, modelling the default `str.strip()` character set. -/
def isPyWs (c : Char) : Bool :=
  c == ' ' || c == '\t' || c == '\n' || c == '\r' || c == '\x0b' || c == '\x0c'

def pyStripL (l : List Char) : List Char :=
  ((l.dropWhile isPyWs).reverse.dropWhile isPyWs).reverse

/-- Python `str.strip()`. -/
def pyStrip (s : String) : String := String.mk (pyStripL s.data)

/-- Python `str.lower()`, restricted to ASCII letters plus the Romanian
uppercase letters that can occur in the "next" labels of the source. -/
def pyLowerChar (c : Char) : Char :=
  if 65 ≤ c.toNat && c.toNat ≤ 90 then Char.ofNat (c.toNat + 32)
  else if c == 'Ă' then 'ă'
  else if c == 'Â' then 'â'
  else if c == 'Î' then 'î'
  else if c == 'Ș' then 'ș'
  else if c == 'Ț' then 'ț'
  else if c == 'Ş' then 'ş'
  else if c == 'Ţ' then 'ţ'
  else c

def pyLower (s : String) : String := String.mk (s.data.map pyLowerChar)

def digitVal (c : Char) : Nat := c.toNat - 48

/-- Value of a decimal digit string, as `int()` computes it on pure digits. -/
def digitsVal (l : List Char) : Nat := l.foldl (fun a c => 10 * a + digitVal c) 0

/-- Decimal digits of a natural number (fuel-based so that it computes by
kernel reduction); any fuel above the number itself suffices. -/
def natDigitsAux : Nat → Nat → List Char
  | 0, _ => []
  | fuel + 1, n =>
    if n < 10 then [Nat.digitChar n]
    else natDigitsAux fuel (n / 10) ++ [Nat.digitChar (n % 10)]

/-- Decimal digits of a natural number, as produced by Python string
formatting of a non-negative `int`. -/
def natDigits (n : Nat) : List Char := natDigitsAux (n + 1) n

def natRepr (n : Nat) : String := String.mk (natDigits n)

/-- Decimal rendering of an `int`, as Python f-string formatting produces. -/
def pyIntRepr (i : Int) : List Char :=
  if i < 0 then '-' :: natDigits (-i).toNat else natDigits i.toNat

/-- Split a char list at the first occurrence of `c`; second component is
`none` when `c` does not occur. -/
def splitOnFirstCh (c : Char) : List Char → List Char × Option (List Char)
  | [] => ([], none)
  | a :: rest =>
    if a == c then ([], some rest)
    else
      let r := splitOnFirstCh c rest
      (a :: r.1, r.2)

/-- Python `str.split(sep)` for a one-character separator. -/
def splitOnCharL (c : Char) : List Char → List (List Char)
  | [] => [[]]
  | a :: rest =>
    if a == c then [] :: splitOnCharL c rest
    else
      match splitOnCharL c rest with
      | [] => [[a]]
      | h :: t => (a :: h) :: t

def hexVal (c : Char) : Option Nat :=
  if 48 ≤ c.toNat && c.toNat ≤ 57 then some (c.toNat - 48)
  else if 97 ≤ c.toNat && c.toNat ≤ 102 then some (c.toNat - 87)
  else if 65 ≤ c.toNat && c.toNat ≤ 70 then some (c.toNat - 55)
  else none

/-- Python `urllib.parse.unquote_plus` on query components: `+` becomes a
space and `%XX` hex escapes decode to the corresponding code point
(single-byte model of the byte-level decoder). -/
def unquoteAux : Nat → List Char → List Char
  | 0, l => l
  | _, [] => []
  | fuel + 1, c :: rest =>
    if c == '%' then
      match rest with
      | a :: b :: rest2 =>
        (match hexVal a, hexVal b with
         | some x, some y => Char.ofNat (16 * x + y) :: unquoteAux fuel rest2
         | _, _ => '%' :: unquoteAux fuel rest)
      | _ => '%' :: unquoteAux fuel rest
    else if c == '+' then ' ' :: unquoteAux fuel rest
    else c :: unquoteAux fuel rest

def unquoteL (l : List Char) : List Char := unquoteAux l.length l

/-- Digit-run validity for Python `int()`: digits with single underscores
allowed strictly between digits. -/
def duTail : List Char → Bool
  | [] => true
  | '_' :: c :: r => c.isDigit && duTail r
  | '_' :: [] => false
  | c :: r => c.isDigit && duTail r

def digitsWithUnderscores : List Char → Bool
  | [] => false
  | c :: r => c.isDigit && duTail r

/-- Python `int(s)`: `none` models a raised `ValueError`. -/
def pyInt (s : String) : Option Int :=
  let t := pyStripL s.data
  let sr : Int × List Char :=
    match t with
    | '+' :: r => (1, r)
    | '-' :: r => (-1, r)
    | r => (1, r)
  if digitsWithUnderscores sr.2 then
    some (sr.1 * Int.ofNat (digitsVal (sr.2.filter (fun c => !(c == '_')))))
  else none

/-! ### URL parsing (`urllib.parse.urlparse`, `parse_qs`, `urljoin`) -/

structure ParsedUrl where
  scheme : String
  netloc : String
  path : String
  query : String
  fragment : String

def isSchemeChar (c : Char) : Bool :=
  c.isAlpha || c.isDigit || c == '+' || c == '-' || c == '.'

/-- Scheme extraction of `urlparse`: a leading `name:` with a valid scheme
name is split off (lowercased); otherwise everything stays in the rest. -/
def schemeSplit (l : List Char) : List Char × List Char :=
  match splitOnFirstCh ':' l with
  | (before, some after) =>
    match before with
    | [] => ([], l)
    | c :: _ =>
      if c.isAlpha && before.all isSchemeChar then (before.map pyLowerChar, after)
      else ([], l)
  | (_, none) => ([], l)

def notNetEnd (c : Char) : Bool := !(c == '/' || c == '?' || c == '#')

/-- Netloc extraction: after `//`, up to the next `/`, `?` or `#`. -/
def netlocSplit (l : List Char) : List Char × List Char :=
  match l with
  | '/' :: '/' :: r => (r.takeWhile notNetEnd, r.dropWhile notNetEnd)
  | _ => ([], l)

def splitOpt (ch : Char) (l : List Char) : List Char × List Char :=
  match splitOnFirstCh ch l with
  | (b, some a) => (b, a)
  | (b, none) => (b, [])

/-- `urllib.parse.urlparse` (scheme, netloc, path, query, fragment). -/
def pyUrlparse (u : String) : ParsedUrl :=
  let sr := schemeSplit u.data
  let nr := netlocSplit sr.2
  let fr := splitOpt '#' nr.2
  let pq := splitOpt '?' fr.1
  ⟨String.mk sr.1, String.mk nr.1, String.mk pq.1, String.mk pq.2, String.mk fr.2⟩

/-- `urllib.parse.parse_qsl` with default options: split on `&`, drop
pairs with a blank value, unquote names and values. -/
def pyParseQsl (qs : String) : List (String × String) :=
  (splitOnCharL '&' qs.data).filterMap fun pairL =>
    match splitOnFirstCh '=' pairL with
    | (_, none) => none
    | (n, some v) =>
      if v.isEmpty then none
      else some (String.mk (unquoteL n), String.mk (unquoteL v))

/-- First value of query parameter `name`: `parse_qs(qs)[name][0]`. -/
def firstParam (qs : String) (name : String) : Option String :=
  ((pyParseQsl qs).find? (fun pr => pr.1 == name)).map (fun pr => pr.2)

def rstripSlash (l : List Char) : List Char :=
  (l.reverse.dropWhile (fun c => c == '/')).reverse

def stripSlashes (l : List Char) : List Char :=
  rstripSlash (l.dropWhile (fun c => c == '/'))

def unparseBase (p : ParsedUrl) : String :=
  if p.scheme == "" && p.netloc == "" then "" else p.scheme ++ "://" ++ p.netloc

def dirOfPath (p : ParsedUrl) : String :=
  if p.path == "" && !(p.netloc == "") then "/"
  else String.mk ((p.path.data.reverse.dropWhile (fun c => !(c == '/'))).reverse)

/-- `urllib.parse.urljoin` (dot-segment normalization omitted; the source
only joins against absolute, root-relative or query-only targets). -/
def urljoin (base url : String) : String :=
  if url == "" then base
  else if !((pyUrlparse url).scheme == "") then url
  else
    match url.data with
    | '/' :: '/' :: _ => (pyUrlparse base).scheme ++ ":" ++ url
    | '/' :: _ => unparseBase (pyUrlparse base) ++ url
    | '?' :: _ => unparseBase (pyUrlparse base) ++ (pyUrlparse base).path ++ url
    | _ => unparseBase (pyUrlparse base) ++ dirOfPath (pyUrlparse base) ++ url

/-- A well-formed scheme name: non-empty, leading letter, scheme
characters throughout (the shape `urlparse` accepts before a colon). -/
def goodSchemeL (l : List Char) : Prop :=
  l ≠ [] ∧ (∀ c, l.head? = some c → c.isAlpha = true) ∧ ∀ a ∈ l, isSchemeChar a = true

/-! ### Identity resolver (`BSGScraper.extract_product_id`) -/

/-- The last element of `parsed.path.strip('/').split('/')`. -/
def lastSegment (u : String) : String :=
  String.mk (((splitOnCharL '/' (stripSlashes (pyUrlparse u).path.data)).getLast?).getD [])

/-- Python `str.isdigit` (ASCII model): non-empty and all decimal digits. -/
def isPyDigit (s : String) : Bool := !s.data.isEmpty && s.data.all Char.isDigit

/-- `BSGScraper.extract_product_id` (src/bsg.py lines 236-248). -/
def extract_product_id (u : String) : String :=
  if isPyDigit (lastSegment u) then lastSegment u
  else
    match firstParam (pyUrlparse u).query "id" with
    | some v => v
    | none => u

/-! ### HTML document model and the CSS queries the source performs -/

inductive Node where
  | elem (tag : String) (attrs : List (String × String)) (children : List Node)
  | text (s : String)

abbrev Doc := List Node

def Node.tagOf : Node → String
  | .elem t _ _ => t
  | .text _ => ""

def Node.attrsOf : Node → List (String × String)
  | .elem _ a _ => a
  | .text _ => []

def Node.childrenOf : Node → List Node
  | .elem _ _ c => c
  | .text _ => []

def getAttr (n : Node) (name : String) : Option String :=
  (n.attrsOf).lookup name

/-- Whitespace-separated tokens of an attribute value (HTML `class` list). -/
def wsTokensAux (acc : List Char) : List Char → List (List Char)
  | [] => if acc.isEmpty then [] else [acc.reverse]
  | c :: r =>
    if isPyWs c then
      (if acc.isEmpty then wsTokensAux [] r else acc.reverse :: wsTokensAux [] r)
    else wsTokensAux (c :: acc) r

def hasClass (n : Node) (cl : String) : Bool :=
  match getAttr n "class" with
  | some s => (wsTokensAux [] s.data).contains cl.data
  | none => false

/-- Substring test, modelling Python `in` and the CSS `*=` attribute match. -/
def strContains (s pat : String) : Bool := decide (pat.data <:+: s.data)

mutual
def Node.textFragments : Node → List String
  | Node.text s => [s]
  | Node.elem _ _ cs => textFragmentsList cs
def textFragmentsList : List Node → List String
  | [] => []
  | c :: cs => Node.textFragments c ++ textFragmentsList cs
end

/-- BeautifulSoup `get_text(strip=True)`: concatenation of the stripped
text fragments of the subtree. -/
def getTextStrip (n : Node) : String := String.join ((Node.textFragments n).map pyStrip)

mutual
/-- Preorder list of the element nodes of a subtree paired with their
ancestor stacks (document order, as soupsieve selects return). -/
def Node.allWithAnc (anc : List Node) : Node → List (Node × List Node)
  | Node.elem t a cs =>
    (Node.elem t a cs, anc) :: allListWithAnc (Node.elem t a cs :: anc) cs
  | Node.text _ => []
def allListWithAnc (anc : List Node) : List Node → List (Node × List Node)
  | [] => []
  | c :: cs => Node.allWithAnc anc c ++ allListWithAnc anc cs
end

/-- `soup.select` with an ancestor-aware predicate. -/
def selectDoc (p : Node → List Node → Bool) (doc : Doc) : List Node :=
  (allListWithAnc [] doc).filterMap (fun e => if p e.1 e.2 then some e.1 else none)

/-- `element.select` over the strict descendants of a candidate element. -/
def selectIn (p : Node → Bool) (n : Node) : List Node :=
  (allListWithAnc [] n.childrenOf).filterMap (fun e => if p e.1 then some e.1 else none)

/-! ### Product extractor (`BSGScraper.extract_products`, lines 250-293) -/

structure Product where
  id : String
  name : String
  price : String
  url : String
  image_url : Option String
deriving DecidableEq, Repr

/-- Selector `.product-item, .product, article.product, .item-product`. -/
def isPrimaryCandidate (n : Node) : Bool :=
  hasClass n "product-item" || hasClass n "product" ||
  (n.tagOf == "article" && hasClass n "product") || hasClass n "item-product"

/-- Fallback selector `[class*="product"]`. -/
def isFallbackCandidate (n : Node) : Bool :=
  match getAttr n "class" with
  | some s => strContains s "product"
  | none => false

def candidateElements (doc : Doc) : List Node :=
  let prim := selectDoc (fun n _ => isPrimaryCandidate n) doc
  if prim.isEmpty then selectDoc (fun n _ => isFallbackCandidate n) doc else prim

def hrefContains (n : Node) (pat : String) : Bool :=
  match getAttr n "href" with
  | some h => strContains h pat
  | none => false

/-- Selector `a[href*="/product"], a[href*="/produs"], a.product-link`. -/
def isProductLink (n : Node) : Bool :=
  n.tagOf == "a" &&
  (hrefContains n "/product" || hrefContains n "/produs" || hasClass n "product-link")

/-- The link cascade of the extractor: the product-path selector first,
else `element.find('a', href=True)`. -/
def candidateLink (c : Node) : Option Node :=
  match (selectIn isProductLink c).head? with
  | some l => some l
  | none => (selectIn (fun n => n.tagOf == "a" && (getAttr n "href").isSome) c).head?

/-- Selector `.product-name, .product-title, h2, h3, .title`. -/
def isNameElem (n : Node) : Bool :=
  hasClass n "product-name" || hasClass n "product-title" ||
  n.tagOf == "h2" || n.tagOf == "h3" || hasClass n "title"

/-- Selector `.price, .product-price, [class*="price"]`. -/
def isPriceElem (n : Node) : Bool :=
  hasClass n "price" || hasClass n "product-price" ||
  (match getAttr n "class" with
   | some s => strContains s "price"
   | none => false)

/-- The price cascade of the extractor: text of the first matching price
element, else the `"N/A"` sentinel. -/
def priceOf (c : Node) : String :=
  match (selectIn isPriceElem c).head? with
  | some pe => getTextStrip pe
  | none => "N/A"

/-- The `src` handling of the extractor's image step: the attribute
resolved against the base URL when present and truthy (`img_elem.get('src')`),
else explicitly absent. -/
def imageSrc (base : String) (ie : Node) : Option String :=
  match getAttr ie "src" with
  | some src => if src == "" then none else some (urljoin base src)
  | none => none

/-- The image extraction of the extractor: the first `img` descendant's
`src` attribute resolved against the base URL when present and truthy,
else explicitly absent. -/
def imageOf (base : String) (c : Node) : Option String :=
  match (selectIn (fun n => n.tagOf == "img") c).head? with
  | some ie => imageSrc base ie
  | none => none

/-- The per-candidate loop body of `extract_products`.  `none` covers both
the explicit `continue` (no anchor found) and the swallowed per-candidate
exception (the matched anchor has no `href` attribute, a `KeyError`). -/
def processCandidate (base : String) (c : Node) : Option Product :=
  match candidateLink c with
  | none => none
  | some link =>
    match getAttr link "href" with
    | none => none
    | some href =>
      let product_url := urljoin base href
      let product_id := extract_product_id product_url
      let name_elem := ((selectIn isNameElem c).head?).getD link
      let product_name := getTextStrip name_elem
      some ⟨product_id, product_name, priceOf c, product_url, imageOf base c⟩

/-- `BSGScraper.extract_products`. -/
def extract_products (doc : Doc) (base : String) : List Product :=
  (candidateElements doc).filterMap (processCandidate base)

/-! ### Pagination resolver (`get_current_page_number`, `find_next_page`) -/

/-- Consume at most one leading character `/` (the optional trailing
slash of the regex, seen on the reversed URL). -/
def stripOneSlash (r : List Char) : List Char × Bool :=
  match r with
  | a :: rest => if a == '/' then (rest, true) else (a :: rest, false)
  | [] => ([], false)

/-- The regex `/p(\d+)/?$`: on success returns the prefix before the
match, the digit run, and whether a trailing slash was consumed. -/
def splitTrailingP (u : String) : Option (List Char × List Char × Bool) :=
  let pr := stripOneSlash u.data.reverse
  let dsr := pr.1.takeWhile Char.isDigit
  if dsr.isEmpty then none
  else
    match pr.1.dropWhile Char.isDigit with
    | 'p' :: '/' :: prer => some (prer.reverse, dsr.reverse, pr.2)
    | _ => none

/-- `BSGScraper.get_current_page_number` (lines 295-308); `none` models a
`ValueError` raised by `int()` on a non-numeric `page`/`pag` parameter. -/
def get_current_page_number (url : String) : Option Int :=
  match splitTrailingP url with
  | some (_, ds, _) => some (Int.ofNat (digitsVal ds))
  | none =>
    let q := (pyUrlparse url).query
    match firstParam q "page" with
    | some v => pyInt v
    | none =>
      match firstParam q "pag" with
      | some v => pyInt v
      | none => some (1 : Int)

def nextLabels : List String := ["next", "următorul", "›", "»", "urmatorul", "următor"]

/-- Selector `a.next, a[rel="next"]`. -/
def isExplicitNext (n : Node) : Bool :=
  n.tagOf == "a" && (hasClass n "next" || getAttr n "rel" == some "next")

def explicitNextLink (doc : Doc) : Option Node :=
  (selectDoc (fun n _ => isExplicitNext n) doc).head?

/-- Containers of `.pagination a, .pager a, nav a, ul.page-numbers a`. -/
def inPaginationContainer (anc : List Node) : Bool :=
  anc.any (fun a => hasClass a "pagination") || anc.any (fun a => hasClass a "pager") ||
  anc.any (fun a => a.tagOf == "nav") ||
  anc.any (fun a => a.tagOf == "ul" && hasClass a "page-numbers")

def paginationAnchors (doc : Doc) : List Node :=
  selectDoc (fun n anc => n.tagOf == "a" && inPaginationContainer anc) doc

/-- The label scan of strategy 2: first pagination anchor whose stripped,
lowercased text is one of the "next" labels. -/
def labelNextLink (doc : Doc) : Option Node :=
  (paginationAnchors doc).find? (fun l => nextLabels.contains (pyLower (getTextStrip l)))

/-- Selector `.pagination a[href], .pager a[href], nav a[href],
ul.page-numbers a[href]`. -/
def pageLinks (doc : Doc) : List Node :=
  selectDoc
    (fun n anc => n.tagOf == "a" && (getAttr n "href").isSome && inPaginationContainer anc)
    doc

/-- The numeric-inference loop of `find_next_page`: first link resolving to
page `cp + 1`; `Except.error` models a propagated `ValueError`. -/
def scanPageLinks (cur : String) (cp : Int) : List Node → Except Unit (Option String)
  | [] => Except.ok none
  | l :: rest =>
    let href := (getAttr l "href").getD ""
    if href == "" then scanPageLinks cur cp rest
    else
      match get_current_page_number (urljoin cur href) with
      | none => Except.error ()
      | some n =>
        if n == cp + 1 then Except.ok (some (urljoin cur href))
        else scanPageLinks cur cp rest

/-- The URL-synthesis tail of `find_next_page` (lines 340-347). -/
def synthNext (cur : String) (cp : Int) : Option String :=
  match splitTrailingP cur with
  | some (pre, _, _) => some (String.mk (pre ++ '/' :: 'p' :: pyIntRepr (cp + 1)))
  | none =>
    if cp == 1 && strContains cur "/produse-recente" then
      some (String.mk (rstripSlash cur.data ++ ['/', 'p', '2']))
    else none

/-- `BSGScraper.find_next_page` (lines 310-347). -/
def find_next_page (doc : Doc) (cur : String) : Except Unit (Option String) :=
  match get_current_page_number cur with
  | none => Except.error ()
  | some cp =>
    let nl :=
      match explicitNextLink doc with
      | some l => some l
      | none => labelNextLink doc
    match nl with
    | some l =>
      match getAttr l "href" with
      | some h =>
        if h == "" then Except.ok (synthNext cur cp)
        else Except.ok (some (urljoin cur h))
      | none => Except.ok (synthNext cur cp)
    | none =>
      match scanPageLinks cur cp (pageLinks doc) with
      | Except.error e => Except.error e
      | Except.ok (some u) => Except.ok (some u)
      | Except.ok none => Except.ok (synthNext cur cp)

/-! ### Traversal driver (`BSGScraper.scrape_all_pages`, lines 349-390) -/

def BASE_URL : String := "https://bsgmag.ro/catalog/produse-recente"

structure ScrapeResult where
  products : List Product
  visited : List String
deriving DecidableEq, Repr

/-- The `while current_url and page_count < 3` loop; `env` is the fetch
collaborator (`none` models a fetch failure, caught by the driver's
`except`, which also catches a `ValueError` out of `find_next_page`). -/
def scrapeLoop (env : String → Option Doc) : Nat → String → ScrapeResult
  | 0, _ => ⟨[], []⟩
  | fuel + 1, url =>
    match env url with
    | none => ⟨[], [url]⟩
    | some doc =>
      let ps := extract_products doc url
      if ps.isEmpty then ⟨[], [url]⟩
      else
        match find_next_page doc url with
        | Except.error _ => ⟨ps, [url]⟩
        | Except.ok none => ⟨ps, [url]⟩
        | Except.ok (some nu) =>
          if nu == "" || nu == url then ⟨ps, [url]⟩
          else
            let r := scrapeLoop env fuel nu
            ⟨ps ++ r.products, url :: r.visited⟩

/-- `BSGScraper.scrape_all_pages` with the hardcoded page limit of 3. -/
def scrape_all_pages (env : String → Option Doc) : ScrapeResult :=
  scrapeLoop env 3 BASE_URL

/-! ### Storage (`ProductStorage.add_products`, lines 208-216) -/

structure StoredProduct where
  product : Product
  first_seen : String
deriving DecidableEq, Repr

/-- `ProductStorage.add_products`: each product whose id is not yet a key
is inserted with a `first_seen` timestamp; existing keys are untouched. -/
def add_products (store : List (String × StoredProduct)) (ps : List Product)
    (now : String) : List (String × StoredProduct) :=
  ps.foldl
    (fun st p => if (st.lookup p.id).isSome then st else st ++ [(p.id, ⟨p, now⟩)])
    store

/-! ### Notifier (`TelegramNotifier.send_product_notification`, 117-143) -/

def formatProductLine (i : Nat) (p : Product) : String :=
  "<b>" ++ natRepr i ++ ". " ++ p.name ++ "</b>\n" ++
  "💰 Preț: " ++ p.price ++ "\n" ++
  "🔗 <a href='" ++ p.url ++ "'>Vezi produsul</a>\n\n"

def productLines : Nat → List Product → String
  | _, [] => ""
  | i, p :: rest => formatProductLine i p ++ productLines (i + 1) rest

def notificationMessage (ps : List Product) : String :=
  (if ps.length == 1 then "🎉 <b>Produs nou pe BSG Magazine!</b>\n\n"
   else "🎉 <b>" ++ natRepr ps.length ++ " Produse noi pe BSG Magazine!</b>\n\n") ++
  productLines 1 ps

def batchesOf5 : List Product → List (List Product)
  | [] => []
  | p :: rest => ((p :: rest).take 5) :: batchesOf5 ((p :: rest).drop 5)
termination_by l => l.length
decreasing_by simp [List.length_drop]; omega

def formatBatchMessage (ps : List Product) : String :=
  "🎉 <b>Produse noi pe BSG Magazine!</b>\n\n" ++ productLines 1 ps

/-- `send_product_notification`: returns the reported success flag and the
list of payloads handed to `send_message` (`env` is the delivery outcome
of each payload). -/
def send_product_notification (env : String → Bool) (ps : List Product) :
    Bool × List String :=
  if ps.isEmpty then (true, [])
  else
    let message := notificationMessage ps
    if message.length > 4000 then
      (true, (batchesOf5 ps).map formatBatchMessage)
    else (env message, [message])

/-- What one traversal step contributes for a visited URL: nothing on a
fetch failure, the extracted products otherwise. -/
def pageExtract (env : String → Option Doc) (u : String) : List Product :=
  match env u with
  | none => []
  | some d => extract_products d u

/-! ### Concrete fixtures used by witnesses and counterexamples -/

/-- A page whose explicit next anchor has no `href` while the pagination
block links to page 2 through a `page` query parameter. -/
def c1doc : Doc :=
  [Node.elem "body" []
    [Node.elem "a" [("class", "next")] [Node.text "Next"],
     Node.elem "div" [("class", "pagination")]
       [Node.elem "a" [("href", "https://bsgmag.ro/catalog/produse-recente?page=2")]
         [Node.text "2"]]]]

def c1cur : String := "https://bsgmag.ro/catalog/produse-recente"

def c1NextAnchor : Node := Node.elem "a" [("class", "next")] [Node.text "Next"]

/-- A page whose explicit next anchor points back at the page itself. -/
def c2doc : Doc :=
  [Node.elem "a"
    [("class", "next"), ("href", "https://bsgmag.ro/catalog/produse-recente")] []]

def c2cur : String := "https://bsgmag.ro/catalog/produse-recente"

def c2emptyDoc : Doc := []

def c2p2 : String := "https://bsgmag.ro/catalog/produse-recente/p2"

/-- A product card whose only anchor carries no text, so the name falls
back to the link's (empty) text. -/
def c3doc : Doc :=
  [Node.elem "div" [("class", "product")] [Node.elem "a" [("href", "/produs/5")] []]]

def c3base : String := "https://bsgmag.ro"

/-- A product card with an image whose `src` attribute is present but
empty (falsy in Python), so the image resolution is skipped. -/
def c3srcDoc : Doc :=
  [Node.elem "div" [("class", "product")]
    [Node.elem "a" [("href", "/produs/6")] [],
     Node.elem "img" [("src", "")] []]]

/-- A product card whose anchor has an empty `href`; with an empty base
URL it joins to the empty string. -/
def c3emptyBaseDoc : Doc :=
  [Node.elem "div" [("class", "product")] [Node.elem "a" [("href", "")] []]]

/-- A product card with an image, to be extracted against a relative
base URL. -/
def c3relDoc : Doc :=
  [Node.elem "div" [("class", "product")]
    [Node.elem "a" [("href", "/produs/7")] [],
     Node.elem "img" [("src", "y")] []]]

/-- The product card of the C3 witness page. -/
def c3witCard : Node :=
  Node.elem "div" [("class", "product")]
    [Node.elem "a" [("href", "/produs/8")] [Node.text "Nume"],
     Node.elem "img" [("src", "/img/8.jpg")] []]

def c3witImg : Node := Node.elem "img" [("src", "/img/8.jpg")] []

def c3witDoc : Doc := [c3witCard]

def c3witP : Product :=
  ⟨"8", "Nume", "N/A", "https://bsgmag.ro/produs/8",
   some "https://bsgmag.ro/img/8.jpg"⟩

/-- A candidate product card containing no anchor at all. -/
def noLinkCard : Node := Node.elem "div" [("class", "product")] [Node.text "x"]

def c4doc : Doc := [noLinkCard]

def c5urlDigit : String := "https://bsgmag.ro/produs/123?id=9"

def c5urlQuery : String := "https://bsgmag.ro/produs/abc?id=42"

def c5urlPlain : String := "https://bsgmag.ro/produs/abc"

def c6urlRaise : String := "https://bsgmag.ro/x?page=abc"

def c6urlZero : String := "https://bsgmag.ro/x/p0"

def c6urlPlain : String := "https://bsgmag.ro/catalog"

def c6urlP5 : String := "https://bsgmag.ro/catalog/produse-recente/p5"

def c8digits : String := "4711"

def c8url : String := "https://bsgmag.ro/produs/123?x=1"

def exProd (i : String) : Product := ⟨i, "Name " ++ i, "10 lei", "https://bsgmag.ro/produs/" ++ i, none⟩

def exStore : List (String × StoredProduct) := [("101", ⟨exProd "101", "t0"⟩)]

def exNewProducts : List Product := [exProd "101", exProd "102", exProd "103"]

def bigName : String := String.mk (List.replicate 4001 'a')

def bigP : Product := ⟨"1", bigName, "10 lei", "https://bsgmag.ro/produs/1", none⟩

/-- A fetch environment in which every request fails. -/
def exEnvFail : String → Option Doc := fun _ => none

/-! ## Theorems -/

theorem ne_empty_of_data_ne {s : String} (h : s.data ≠ []) : s ≠ "" := by
  intro e; rw [e] at h; exact h rfl

theorem data_eq_nil_of_eq_empty {s : String} (h : s = "") : s.data = [] := by
  rw [h]

/-! ### C7: the traversal driver visits at most three pages and returns
exactly what the visited pages contributed. -/

theorem scrapeLoop_spec (env : String → Option Doc) :
    ∀ (fuel : Nat) (url : String),
      (scrapeLoop env fuel url).visited.length ≤ fuel ∧
      (scrapeLoop env fuel url).products =
        (scrapeLoop env fuel url).visited.flatMap (pageExtract env) := by
  intro fuel
  induction fuel with
  | zero => intro url; simp [scrapeLoop]
  | succ n ih =>
    intro url
    cases henv : env url with
    | none => simp [scrapeLoop, henv, pageExtract]
    | some doc =>
      cases hps : (extract_products doc url).isEmpty with
      | true => simp [scrapeLoop, henv, hps, pageExtract, List.isEmpty_iff.mp hps]
      | false =>
        cases hfn : find_next_page doc url with
        | error e => simp [scrapeLoop, henv, hps, hfn, pageExtract]
        | ok onu =>
          cases onu with
          | none => simp [scrapeLoop, henv, hps, hfn, pageExtract]
          | some nu =>
            cases hstop : (nu == "" || nu == url) with
            | true => simp [scrapeLoop, henv, hps, hfn, hstop, pageExtract]
            | false =>
              obtain ⟨ha, hb⟩ := ih nu
              constructor
              · simp only [scrapeLoop, henv, hps, hfn, hstop]
                simpa using Nat.succ_le_succ ha
              · simp only [scrapeLoop, henv, hps, hfn, hstop]
                simp [pageExtract, henv, hb]

/-- C7: for every start URL and every sequence of fetch/extract/next-page
outcomes, `scrape_all_pages` visits at most 3 pages (the hardcoded page
limit) and, on every terminal condition, returns exactly the products
accumulated from the pages it visited (partial results, never a failure). -/
theorem c7_traversal_bounded (env : String → Option Doc) :
    (scrape_all_pages env).visited.length ≤ 3 ∧
    (scrape_all_pages env).products =
      (scrape_all_pages env).visited.flatMap (pageExtract env) :=
  scrapeLoop_spec env 3 BASE_URL

/-- C7 witness: the bound and the accumulation equation at a concrete
environment in which every fetch fails. -/
theorem c7_witness :
    (scrape_all_pages exEnvFail).visited.length ≤ 3 ∧
    (scrape_all_pages exEnvFail).products =
      (scrape_all_pages exEnvFail).visited.flatMap (pageExtract exEnvFail) :=
  c7_traversal_bounded exEnvFail

/-! ### C4: per-candidate failures only drop that candidate. -/

/-- C4: the extractor is a total function of the candidate list: its
output is the per-candidate processing filtered of failures, its length
never exceeds the number of candidates, a candidate with no locatable
anchor yields nothing, and a failing candidate leaves the others'
extraction untouched. -/
theorem c4_extractor_skips (doc : Doc) (base : String) :
    extract_products doc base = (candidateElements doc).filterMap (processCandidate base) ∧
    (extract_products doc base).length ≤ (candidateElements doc).length ∧
    (∀ c, candidateLink c = none → processCandidate base c = none) ∧
    (∀ pre c post, processCandidate base c = none →
      (pre ++ c :: post).filterMap (processCandidate base) =
        (pre ++ post).filterMap (processCandidate base)) := by
  refine ⟨rfl, List.length_filterMap_le _ _, ?_, ?_⟩
  · intro c hc
    simp [processCandidate, hc]
  · intro pre c post hc
    simp [List.filterMap_append, List.filterMap_cons, hc]

/-- C4 witness: on a concrete page whose only candidate has no anchor,
the bound and the skip property hold. -/
theorem c4_witness :
    (extract_products c4doc c3base).length ≤ (candidateElements c4doc).length ∧
    ([] ++ noLinkCard :: []).filterMap (processCandidate c3base) =
      ([] ++ []).filterMap (processCandidate c3base) := by
  have h := c4_extractor_skips c4doc c3base
  exact ⟨h.2.1, h.2.2.2 [] noLinkCard [] (h.2.2.1 noLinkCard rfl)⟩

/-! ### C5: the identity-resolver policy. -/

/-- C5: `extract_product_id` returns the final path segment whenever it is
purely numeric (regardless of any query string), else the first value of
the `id` query parameter when present, else the full URL unchanged. -/
theorem c5_identity_policy (u : String) :
    (isPyDigit (lastSegment u) = true → extract_product_id u = lastSegment u) ∧
    (isPyDigit (lastSegment u) = false →
      ∀ v, firstParam (pyUrlparse u).query "id" = some v → extract_product_id u = v) ∧
    (isPyDigit (lastSegment u) = false → firstParam (pyUrlparse u).query "id" = none →
      extract_product_id u = u) := by
  refine ⟨?_, ?_, ?_⟩
  · intro h; simp [extract_product_id, h]
  · intro h v hv; simp [extract_product_id, h, hv]
  · intro h hv; simp [extract_product_id, h, hv]

/-- C5 witness: the three policy branches at concrete URLs. -/
theorem c5_witness :
    extract_product_id c5urlDigit = lastSegment c5urlDigit ∧
    extract_product_id c5urlQuery = "42" ∧
    extract_product_id c5urlPlain = c5urlPlain :=
  ⟨(c5_identity_policy c5urlDigit).1 rfl,
   (c5_identity_policy c5urlQuery).2.1 rfl "42" rfl,
   (c5_identity_policy c5urlPlain).2.2 rfl rfl⟩

/-! ### C9: storage frame property. -/

theorem lookup_append_left {α β : Type} [BEq α] {l₁ : List (α × β)} (l₂ : List (α × β))
    {k : α} {v : β} (h : l₁.lookup k = some v) : (l₁ ++ l₂).lookup k = some v := by
  induction l₁ with
  | nil => simp [List.lookup] at h
  | cons a rest ih =>
    rw [List.cons_append]
    cases a with
    | mk k' v' =>
      by_cases hk : k == k'
      · simp [List.lookup, hk] at h ⊢; exact h
      · simp only [List.lookup, hk] at h ⊢
        exact ih h

theorem lookup_append_none {α β : Type} [BEq α] {l₁ : List (α × β)} (l₂ : List (α × β))
    {k : α} (h : l₁.lookup k = none) : (l₁ ++ l₂).lookup k = l₂.lookup k := by
  induction l₁ with
  | nil => simp
  | cons a rest ih =>
    rw [List.cons_append]
    cases a with
    | mk k' v' =>
      by_cases hk : k == k'
      · simp [List.lookup, hk] at h
      · simp only [List.lookup, hk] at h ⊢
        exact ih h

theorem add_products_lookup (ps : List Product) :
    ∀ (store : List (String × StoredProduct)) (now pid : String),
      ((store.lookup pid).isSome → (add_products store ps now).lookup pid = store.lookup pid) ∧
      (store.lookup pid = none → ∀ r, (add_products store ps now).lookup pid = some r →
          r.product.id = pid ∧ r.product ∈ ps ∧ r.first_seen = now) ∧
      (store.lookup pid = none → (∃ p ∈ ps, p.id = pid) →
          ((add_products store ps now).lookup pid).isSome) := by
  induction ps with
  | nil =>
    intro store now pid
    have hnil : add_products store [] now = store := rfl
    refine ⟨fun _ => by rw [hnil], fun h r hr => ?_, fun _ h => ?_⟩
    · rw [hnil, h] at hr
      exact absurd hr (by simp)
    · simp at h
  | cons p rest ih =>
    intro store now pid
    have hstep : add_products store (p :: rest) now =
        add_products
          (if (store.lookup p.id).isSome then store else store ++ [(p.id, ⟨p, now⟩)])
          rest now := by
      by_cases hp : (store.lookup p.id).isSome <;> simp [add_products, hp]
    by_cases hp : (store.lookup p.id).isSome
    · rw [if_pos hp] at hstep
      rw [hstep]
      obtain ⟨ih1, ih2, ih3⟩ := ih store now pid
      refine ⟨ih1, ?_, ?_⟩
      · intro hnone r hr
        obtain ⟨ha, hb, hc⟩ := ih2 hnone r hr
        exact ⟨ha, List.mem_cons_of_mem _ hb, hc⟩
      · intro hnone hex
        obtain ⟨q, hq, hqid⟩ := hex
        rcases List.mem_cons.mp hq with hq1 | hq2
        · subst hq1
          rw [hqid, hnone] at hp
          simp at hp
        · exact ih3 hnone ⟨q, hq2, hqid⟩
    · rw [if_neg hp] at hstep
      rw [hstep]
      have hpn : store.lookup p.id = none := by
        cases hl : store.lookup p.id with
        | none => rfl
        | some v => rw [hl] at hp; simp at hp
      obtain ⟨ih1, ih2, ih3⟩ := ih (store ++ [(p.id, ⟨p, now⟩)]) now pid
      by_cases hpid : pid = p.id
      · subst hpid
        have hmid : (store ++ [(p.id, (⟨p, now⟩ : StoredProduct))]).lookup p.id
            = some ⟨p, now⟩ := by
          rw [lookup_append_none _ hpn]
          simp [List.lookup]
        refine ⟨?_, ?_, ?_⟩
        · intro hsome
          rw [hpn] at hsome
          simp at hsome
        · intro hnone r hr
          rw [ih1 (by rw [hmid]; rfl), hmid] at hr
          injection hr with hr
          rw [← hr]
          exact ⟨rfl, List.mem_cons_self _ _, rfl⟩
        · intro hnone hex
          rw [ih1 (by rw [hmid]; rfl), hmid]
          rfl
      · have hbeq : (pid == p.id) = false := beq_eq_false_iff_ne.mpr hpid
        have hmid : (store ++ [(p.id, (⟨p, now⟩ : StoredProduct))]).lookup pid
            = store.lookup pid := by
          cases hl : store.lookup pid with
          | some v => exact lookup_append_left _ hl
          | none =>
            rw [lookup_append_none _ hl]
            simp [List.lookup, hbeq]
        refine ⟨?_, ?_, ?_⟩
        · intro hsome
          rw [ih1 (by rw [hmid]; exact hsome), hmid]
        · intro hnone r hr
          obtain ⟨ha, hb, hc⟩ := ih2 (by rw [hmid]; exact hnone) r hr
          exact ⟨ha, List.mem_cons_of_mem _ hb, hc⟩
        · intro hnone hex
          obtain ⟨q, hq, hqid⟩ := hex
          rcases List.mem_cons.mp hq with hq1 | hq2
          · subst hq1
            exact absurd hqid.symm hpid
          · exact ih3 (by rw [hmid]; exact hnone) ⟨q, hq2, hqid⟩

/-- C9: adding products leaves every entry whose id is already present
completely unchanged (its `first_seen` timestamp included), and every id
inserted by the call carries the product's fields plus the insertion
timestamp. -/
theorem c9_storage_frame (store : List (String × StoredProduct)) (ps : List Product)
    (now pid : String) :
    ((store.lookup pid).isSome → (add_products store ps now).lookup pid = store.lookup pid) ∧
    (store.lookup pid = none → ∀ r, (add_products store ps now).lookup pid = some r →
        r.product.id = pid ∧ r.product ∈ ps ∧ r.first_seen = now) ∧
    (store.lookup pid = none → (∃ p ∈ ps, p.id = pid) →
        ((add_products store ps now).lookup pid).isSome) :=
  add_products_lookup ps store now pid

/-- C9 witness: with known id 101 and scraped ids 101, 102, 103, the 101
entry is untouched and 102 is inserted with the new timestamp. -/
theorem c9_witness :
    (add_products exStore exNewProducts "t1").lookup "101" = exStore.lookup "101" ∧
    ((add_products exStore exNewProducts "t1").lookup "102").isSome := by
  refine ⟨(c9_storage_frame exStore exNewProducts "t1" "101").1 (by decide), ?_⟩
  exact (c9_storage_frame exStore exNewProducts "t1" "102").2.2 (by decide)
    ⟨exProd "102", by decide, by decide⟩

/-! ### C10: the notifier's unconditional successes. -/

/-- C10: `send_product_notification` reports success without consulting
any delivery outcome in two cases: the empty product list (no send is
attempted), and an over-length message (the batched chunks are sent and
`true` is returned regardless of every chunk's delivery outcome). -/
theorem c10_notifier (env : String → Bool) (ps : List Product) :
    send_product_notification env [] = (true, []) ∧
    (ps.isEmpty = false → 4000 < (notificationMessage ps).length →
      send_product_notification env ps = (true, (batchesOf5 ps).map formatBatchMessage)) := by
  constructor
  · simp [send_product_notification]
  · intro h1 h2
    simp only [send_product_notification, h1, Bool.false_eq_true, if_false]
    rw [if_pos h2]

/-! ### Decimal digit lemmas -/

theorem digitVal_digitChar {m : Nat} (h : m < 10) :
    digitVal (Nat.digitChar m) = m ∧ (Nat.digitChar m).isDigit = true := by
  interval_cases m <;> exact ⟨by decide, by decide⟩

theorem digitsVal_append (l : List Char) (c : Char) :
    digitsVal (l ++ [c]) = 10 * digitsVal l + digitVal c := by
  simp [digitsVal, List.foldl_append]

theorem natDigitsAux_spec :
    ∀ (fuel n : Nat), n < fuel →
      digitsVal (natDigitsAux fuel n) = n ∧ natDigitsAux fuel n ≠ [] ∧
      ∀ c ∈ natDigitsAux fuel n, c.isDigit = true := by
  intro fuel
  induction fuel with
  | zero => intro n h; omega
  | succ f ih =>
    intro n h
    by_cases h10 : n < 10
    · simp only [natDigitsAux, if_pos h10]
      refine ⟨?_, by simp, ?_⟩
      · simp [digitsVal, (digitVal_digitChar h10).1]
      · intro c hc
        simp at hc
        rw [hc]
        exact (digitVal_digitChar h10).2
    · have hdiv : n / 10 < f := by omega
      obtain ⟨ihv, ihne, ihd⟩ := ih (n / 10) hdiv
      simp only [natDigitsAux, if_neg h10]
      have hm : n % 10 < 10 := Nat.mod_lt _ (by omega)
      refine ⟨?_, by simp, ?_⟩
      · rw [digitsVal_append, ihv, (digitVal_digitChar hm).1]
        omega
      · intro c hc
        rcases List.mem_append.mp hc with h1 | h2
        · exact ihd c h1
        · simp at h2
          rw [h2]
          exact (digitVal_digitChar hm).2

theorem natDigits_spec (n : Nat) :
    digitsVal (natDigits n) = n ∧ natDigits n ≠ [] ∧
    ∀ c ∈ natDigits n, c.isDigit = true :=
  natDigitsAux_spec (n + 1) n (by omega)

/-! ### All-digit strings parse to themselves -/

theorem digit_not_special {c : Char} (h : c.isDigit = true) :
    (c == '/') = false ∧ (c == ':') = false ∧ (c == '?') = false ∧ (c == '#') = false := by
  refine ⟨?_, ?_, ?_, ?_⟩ <;>
    (rw [beq_eq_false_iff_ne]; rintro rfl; exact absurd h (by decide))

theorem splitOnFirstCh_of_forall {ch : Char} :
    ∀ {l : List Char}, (∀ a ∈ l, (a == ch) = false) → splitOnFirstCh ch l = (l, none) := by
  intro l
  induction l with
  | nil => intro _; rfl
  | cons a rest ih =>
    intro h
    simp only [splitOnFirstCh, h a (List.mem_cons_self a rest), Bool.false_eq_true, if_false]
    rw [ih (fun x hx => h x (List.mem_cons_of_mem a hx))]

theorem dropWhile_of_forall {p : Char → Bool} {l : List Char}
    (h : ∀ a ∈ l, p a = false) : l.dropWhile p = l := by
  cases l with
  | nil => rfl
  | cons a rest => simp [List.dropWhile_cons, h a (List.mem_cons_self a rest)]

theorem splitOnCharL_of_forall {ch : Char} :
    ∀ {l : List Char}, (∀ a ∈ l, (a == ch) = false) → splitOnCharL ch l = [l] := by
  intro l
  induction l with
  | nil => intro _; rfl
  | cons a rest ih =>
    intro h
    simp only [splitOnCharL, h a (List.mem_cons_self a rest), Bool.false_eq_true, if_false]
    rw [ih (fun x hx => h x (List.mem_cons_of_mem a hx))]

theorem schemeSplit_of_digits {l : List Char} (hd : ∀ a ∈ l, a.isDigit = true) :
    schemeSplit l = ([], l) := by
  unfold schemeSplit
  rw [splitOnFirstCh_of_forall (fun a ha => (digit_not_special (hd a ha)).2.1)]

theorem netlocSplit_of_digits {l : List Char} (hd : ∀ a ∈ l, a.isDigit = true) :
    netlocSplit l = ([], l) := by
  unfold netlocSplit
  split
  · exfalso
    have h1 := hd '/' (List.mem_cons_self _ _)
    exact absurd h1 (by decide)
  · rfl

theorem pyUrlparse_all_digit {s : String} (hd : ∀ a ∈ s.data, a.isDigit = true) :
    (pyUrlparse s).path = s ∧ (pyUrlparse s).query = "" := by
  have h1 := schemeSplit_of_digits hd
  have h2 := netlocSplit_of_digits hd
  have h3 : splitOpt '#' s.data = (s.data, []) := by
    unfold splitOpt
    rw [splitOnFirstCh_of_forall (fun a ha => (digit_not_special (hd a ha)).2.2.2)]
  have h4 : splitOpt '?' s.data = (s.data, []) := by
    unfold splitOpt
    rw [splitOnFirstCh_of_forall (fun a ha => (digit_not_special (hd a ha)).2.2.1)]
  constructor
  · show (pyUrlparse s).path = s
    simp only [pyUrlparse, h1, h2, h3, h4]
  · show (pyUrlparse s).query = ""
    simp only [pyUrlparse, h1, h2, h3, h4]

theorem lastSegment_digits {s : String} (hd : ∀ a ∈ s.data, a.isDigit = true) :
    lastSegment s = s := by
  have hpath := (pyUrlparse_all_digit hd).1
  have hns : ∀ a ∈ s.data, (a == '/') = false := fun a ha => (digit_not_special (hd a ha)).1
  unfold lastSegment
  rw [hpath]
  unfold stripSlashes rstripSlash
  rw [dropWhile_of_forall hns]
  rw [dropWhile_of_forall (fun a ha => hns a (List.mem_reverse.mp ha))]
  rw [List.reverse_reverse]
  rw [splitOnCharL_of_forall hns]
  rfl

theorem extract_product_id_digits {s : String} (h : isPyDigit s = true) :
    extract_product_id s = s := by
  have hd : ∀ a ∈ s.data, a.isDigit = true := by
    have hparts := (Bool.and_eq_true _ _).mp h
    exact fun a ha => List.all_eq_true.mp hparts.2 a ha
  have hls := lastSegment_digits hd
  unfold extract_product_id
  rw [hls]
  simp [h]

/-! ### C3: field invariants of extracted products. -/

theorem eq_empty_of_data_eq {s : String} (h : s.data = []) : s = "" := by
  cases s with
  | mk d =>
    simp only at h
    subst h
    rfl

theorem unquoteAux_ne_nil : ∀ (fuel : Nat) (l : List Char), l ≠ [] → unquoteAux fuel l ≠ [] := by
  intro fuel l h
  match fuel, l with
  | 0, l => simp only [unquoteAux]; exact h
  | f + 1, [] => exact absurd rfl h
  | f + 1, c :: rest =>
    simp only [unquoteAux]
    split
    · split
      · split <;> simp
      · simp
    · split <;> simp

theorem firstParam_value_ne_empty {qs name v : String}
    (h : firstParam qs name = some v) : v ≠ "" := by
  unfold firstParam at h
  cases hfind : (pyParseQsl qs).find? (fun pr => pr.1 == name) with
  | none => rw [hfind] at h; exact absurd h (by simp)
  | some pr =>
    rw [hfind] at h
    simp only [Option.map] at h
    injection h with h
    have hmem : pr ∈ pyParseQsl qs := List.mem_of_find?_eq_some hfind
    unfold pyParseQsl at hmem
    rw [List.mem_filterMap] at hmem
    obtain ⟨pairL, _, hpair⟩ := hmem
    subst h
    split at hpair
    · exact absurd hpair (by simp)
    · rename_i nn vv heq2
      split at hpair
      · exact absurd hpair (by simp)
      · rename_i hw
        injection hpair with hpair
        apply ne_empty_of_data_ne
        rw [← hpair]
        show unquoteL vv ≠ []
        exact unquoteAux_ne_nil _ vv (by simpa [List.isEmpty_iff] using hw)

theorem string_append_ne_empty (a b : String) (hb : b.data ≠ []) : a ++ b ≠ "" := by
  apply ne_empty_of_data_ne
  rw [String.data_append]
  intro e
  exact hb (List.append_eq_nil.mp e).2

theorem urljoin_ne_empty {base url : String} (hb : base ≠ "") : urljoin base url ≠ "" := by
  by_cases h0 : (url == "") = true
  · simp only [urljoin, if_pos h0]
    exact hb
  · have hu : url ≠ "" := by
      intro e
      exact h0 (by rw [e]; rfl)
    have hud : url.data ≠ [] := fun e => hu (eq_empty_of_data_eq e)
    simp only [urljoin]
    rw [if_neg h0]
    split
    · exact hu
    · split <;> exact string_append_ne_empty _ _ hud

theorem extract_product_id_ne_empty {u : String} (hu : u ≠ "") :
    extract_product_id u ≠ "" := by
  unfold extract_product_id
  split
  · next hdig =>
    have h1 := ((Bool.and_eq_true _ _).mp hdig).1
    apply ne_empty_of_data_ne
    intro e
    rw [e] at h1
    simp at h1
  · split
    · next v hv => exact firstParam_value_ne_empty hv
    · exact hu

theorem char_toNat_ofNat {n : Nat} (h : n < 55296) : (Char.ofNat n).toNat = n := by
  unfold Char.ofNat
  rw [dif_pos (Or.inl h)]
  rfl

theorem alpha_of_toNat {c : Char}
    (h : (65 ≤ c.toNat ∧ c.toNat ≤ 90) ∨ (97 ≤ c.toNat ∧ c.toNat ≤ 122)) :
    c.isAlpha = true := by
  unfold Char.isAlpha Char.isUpper Char.isLower
  simp only [Bool.or_eq_true, Bool.and_eq_true, decide_eq_true_eq]
  rcases h with ⟨h1, h2⟩ | ⟨h1, h2⟩
  · exact Or.inl ⟨h1, h2⟩
  · exact Or.inr ⟨h1, h2⟩

theorem isAlpha_toNat {c : Char} (h : c.isAlpha = true) :
    (65 ≤ c.toNat ∧ c.toNat ≤ 90) ∨ (97 ≤ c.toNat ∧ c.toNat ≤ 122) := by
  unfold Char.isAlpha Char.isUpper Char.isLower at h
  simp only [Bool.or_eq_true, Bool.and_eq_true, decide_eq_true_eq] at h
  rcases h with ⟨h1, h2⟩ | ⟨h1, h2⟩
  · exact Or.inl ⟨h1, h2⟩
  · exact Or.inr ⟨h1, h2⟩

theorem isDigit_toNat {c : Char} (h : c.isDigit = true) :
    48 ≤ c.toNat ∧ c.toNat ≤ 57 := by
  unfold Char.isDigit at h
  simp only [Bool.and_eq_true, decide_eq_true_eq] at h
  exact ⟨h.1, h.2⟩

theorem isSchemeChar_ranges {c : Char} (h : isSchemeChar c = true) :
    (65 ≤ c.toNat ∧ c.toNat ≤ 90) ∨ (97 ≤ c.toNat ∧ c.toNat ≤ 122) ∨
    (48 ≤ c.toNat ∧ c.toNat ≤ 57) ∨ c.toNat = 43 ∨ c.toNat = 45 ∨ c.toNat = 46 := by
  unfold isSchemeChar at h
  simp only [Bool.or_eq_true] at h
  rcases h with (((h | h) | h) | h) | h
  · rcases isAlpha_toNat h with h2 | h2
    · exact Or.inl h2
    · exact Or.inr (Or.inl h2)
  · exact Or.inr (Or.inr (Or.inl (isDigit_toNat h)))
  · have e := (beq_iff_eq).mp h
    rw [e]
    exact Or.inr (Or.inr (Or.inr (Or.inl rfl)))
  · have e := (beq_iff_eq).mp h
    rw [e]
    exact Or.inr (Or.inr (Or.inr (Or.inr (Or.inl rfl))))
  · have e := (beq_iff_eq).mp h
    rw [e]
    exact Or.inr (Or.inr (Or.inr (Or.inr (Or.inr rfl))))

theorem isSchemeChar_ne_colon {c : Char} (h : isSchemeChar c = true) :
    (c == ':') = false := by
  rw [beq_eq_false_iff_ne]
  intro e
  have hr := isSchemeChar_ranges h
  have h58 : c.toNat = 58 := by rw [e]; rfl
  omega

theorem pyLowerChar_eq_self {c : Char} (h1 : ¬(65 ≤ c.toNat ∧ c.toNat ≤ 90))
    (h2 : c.toNat ≤ 122) : pyLowerChar c = c := by
  have hb : ∀ d : Char, c.toNat ≠ d.toNat → (c == d) = false := by
    intro d hd
    rw [beq_eq_false_iff_ne]
    intro e
    exact hd (by rw [e])
  have e1 : (c == 'Ă') = false := hb _ (by have hx : ('Ă').toNat = 258 := rfl; omega)
  have e2 : (c == 'Â') = false := hb _ (by have hx : ('Â').toNat = 194 := rfl; omega)
  have e3 : (c == 'Î') = false := hb _ (by have hx : ('Î').toNat = 206 := rfl; omega)
  have e4 : (c == 'Ș') = false := hb _ (by have hx : ('Ș').toNat = 536 := rfl; omega)
  have e5 : (c == 'Ț') = false := hb _ (by have hx : ('Ț').toNat = 538 := rfl; omega)
  have e6 : (c == 'Ş') = false := hb _ (by have hx : ('Ş').toNat = 350 := rfl; omega)
  have e7 : (c == 'Ţ') = false := hb _ (by have hx : ('Ţ').toNat = 354 := rfl; omega)
  unfold pyLowerChar
  rw [if_neg (by simp only [Bool.and_eq_true, decide_eq_true_eq]; exact h1),
    if_neg (by simp [e1]), if_neg (by simp [e2]), if_neg (by simp [e3]),
    if_neg (by simp [e4]), if_neg (by simp [e5]), if_neg (by simp [e6]),
    if_neg (by simp [e7])]

theorem pyLowerChar_upper {c : Char} (h1 : 65 ≤ c.toNat) (h2 : c.toNat ≤ 90) :
    (pyLowerChar c).toNat = c.toNat + 32 := by
  unfold pyLowerChar
  rw [if_pos (by simp only [Bool.and_eq_true, decide_eq_true_eq]; exact ⟨h1, h2⟩)]
  exact char_toNat_ofNat (by omega)

theorem pyLowerChar_alpha {c : Char} (h : c.isAlpha = true) :
    (pyLowerChar c).isAlpha = true := by
  by_cases hu : 65 ≤ c.toNat ∧ c.toNat ≤ 90
  · have ht := pyLowerChar_upper hu.1 hu.2
    exact alpha_of_toNat (Or.inr ⟨by omega, by omega⟩)
  · have hb := isAlpha_toNat h
    have h122 : c.toNat ≤ 122 := by rcases hb with ⟨_, h2⟩ | ⟨_, h2⟩ <;> omega
    rw [pyLowerChar_eq_self hu h122]
    exact h

theorem pyLowerChar_scheme {c : Char} (h : isSchemeChar c = true) :
    isSchemeChar (pyLowerChar c) = true := by
  by_cases hu : 65 ≤ c.toNat ∧ c.toNat ≤ 90
  · have ht := pyLowerChar_upper hu.1 hu.2
    have ha : (pyLowerChar c).isAlpha = true :=
      alpha_of_toNat (Or.inr ⟨by omega, by omega⟩)
    unfold isSchemeChar
    rw [ha]
    rfl
  · have h122 : c.toNat ≤ 122 := by
      rcases isSchemeChar_ranges h with h2 | h2 | h2 | h2 | h2 | h2 <;> omega
    rw [pyLowerChar_eq_self hu h122]
    exact h

theorem splitOnFirstCh_append {ch : Char} {l : List Char}
    (h : ∀ a ∈ l, (a == ch) = false) (r : List Char) :
    splitOnFirstCh ch (l ++ ch :: r) = (l, some r) := by
  induction l with
  | nil => simp [splitOnFirstCh]
  | cons a t ih =>
    have ha : (a == ch) = false := h a (List.mem_cons_self a t)
    have ih2 := ih (fun b hb => h b (List.mem_cons_of_mem a hb))
    simp [splitOnFirstCh, ha, ih2]

theorem schemeSplit_fst (l : List Char) :
    (schemeSplit l).1 = [] ∨
    ∃ c t, (schemeSplit l).1 = (c :: t).map pyLowerChar ∧
      c.isAlpha = true ∧ ∀ a ∈ c :: t, isSchemeChar a = true := by
  unfold schemeSplit
  split
  · next before after heq =>
    cases before with
    | nil => exact Or.inl rfl
    | cons c t =>
      by_cases hc : (c.isAlpha && (c :: t).all isSchemeChar) = true
      · right
        refine ⟨c, t, ?_, ((Bool.and_eq_true _ _).mp hc).1,
          fun a ha => List.all_eq_true.mp ((Bool.and_eq_true _ _).mp hc).2 a ha⟩
        show (if (c.isAlpha && (c :: t).all isSchemeChar) = true
          then (List.map pyLowerChar (c :: t), after) else ([], l)).1 =
            List.map pyLowerChar (c :: t)
        rw [if_pos hc]
      · left
        show (if (c.isAlpha && (c :: t).all isSchemeChar) = true
          then (List.map pyLowerChar (c :: t), after) else ([], l)).1 = []
        rw [if_neg hc]
  · exact Or.inl rfl

theorem pyUrlparse_scheme_eq (u : String) :
    (pyUrlparse u).scheme = String.mk (schemeSplit u.data).1 := rfl

theorem pyUrlparse_scheme_good {u : String} (h : ¬ (pyUrlparse u).scheme = "") :
    goodSchemeL (pyUrlparse u).scheme.data := by
  rcases schemeSplit_fst u.data with he | ⟨c, t, he, hc, hall⟩
  · exact absurd (by rw [pyUrlparse_scheme_eq, he]) h
  · rw [pyUrlparse_scheme_eq, he]
    show goodSchemeL ((c :: t).map pyLowerChar)
    refine ⟨by simp, ?_, ?_⟩
    · intro d hd
      simp only [List.map_cons, List.head?_cons, Option.some.injEq] at hd
      rw [← hd]
      exact pyLowerChar_alpha hc
    · intro a ha
      rw [List.mem_map] at ha
      obtain ⟨b, hb, hba⟩ := ha
      rw [← hba]
      exact pyLowerChar_scheme (hall b hb)

theorem pyUrlparse_scheme_of_data {w : String} {sch rest : List Char}
    (hw : w.data = sch ++ ':' :: rest) (hg : goodSchemeL sch) :
    (pyUrlparse w).scheme = String.mk (sch.map pyLowerChar) := by
  obtain ⟨hne, hhead, hall⟩ := hg
  have hsp : splitOnFirstCh ':' w.data = (sch, some rest) := by
    rw [hw]
    exact splitOnFirstCh_append (fun a ha => isSchemeChar_ne_colon (hall a ha)) rest
  cases sch with
  | nil => exact absurd rfl hne
  | cons c t =>
    have hc : c.isAlpha = true := hhead c rfl
    have hcond : (c.isAlpha && (c :: t).all isSchemeChar) = true := by
      rw [hc, List.all_eq_true.mpr (fun a ha => hall a ha)]
      rfl
    have hss : schemeSplit w.data = ((c :: t).map pyLowerChar, rest) := by
      unfold schemeSplit
      rw [hsp]
      show (if (c.isAlpha && (c :: t).all isSchemeChar) = true
        then ((c :: t).map pyLowerChar, rest) else ([], w.data)) =
          ((c :: t).map pyLowerChar, rest)
      rw [if_pos hcond]
    rw [pyUrlparse_scheme_eq, hss]

theorem scheme_append_ne {base : String} (hb : ¬ (pyUrlparse base).scheme = "")
    {w : String} {rest : List Char}
    (hw : w.data = (pyUrlparse base).scheme.data ++ ':' :: rest) :
    ¬ (pyUrlparse w).scheme = "" := by
  have hg := pyUrlparse_scheme_good hb
  have hs := pyUrlparse_scheme_of_data hw hg
  rw [hs]
  apply ne_empty_of_data_ne
  show ((pyUrlparse base).scheme.data).map pyLowerChar ≠ []
  intro e
  rcases hd : (pyUrlparse base).scheme.data with _ | ⟨a, t⟩
  · exact hg.1 hd
  · rw [hd] at e
    simp at e

theorem unparseBase_eq {base : String} (hb : ¬ (pyUrlparse base).scheme = "") :
    unparseBase (pyUrlparse base) =
      (pyUrlparse base).scheme ++ "://" ++ (pyUrlparse base).netloc := by
  unfold unparseBase
  rw [if_neg ?hc]
  case hc =>
    intro hc
    simp only [Bool.and_eq_true, beq_iff_eq] at hc
    exact hb hc.1

/-- `urljoin` against a base with a URL scheme always produces a URL
with a scheme (an absolute URL), whatever the joined target is. -/
theorem urljoin_scheme {base : String} (u : String)
    (hb : ¬ (pyUrlparse base).scheme = "") :
    ¬ (pyUrlparse (urljoin base u)).scheme = "" := by
  have hub := unparseBase_eq hb
  have hcolon : ("://" : String).data = [':', '/', '/'] := rfl
  unfold urljoin
  split
  · exact hb
  · split
    · next hs => simpa using hs
    · split
      · have hw : ((pyUrlparse base).scheme ++ ":" ++ u).data
            = (pyUrlparse base).scheme.data ++ ':' :: u.data := by
          have h1 : (":" : String).data = [':'] := rfl
          simp [String.data_append, h1]
        exact scheme_append_ne hb hw
      · have hw : (unparseBase (pyUrlparse base) ++ u).data
            = (pyUrlparse base).scheme.data
              ++ ':' :: ('/' :: '/' :: ((pyUrlparse base).netloc.data ++ u.data)) := by
          rw [hub]
          simp [String.data_append, hcolon]
        exact scheme_append_ne hb hw
      · have hw : (unparseBase (pyUrlparse base) ++ (pyUrlparse base).path ++ u).data
            = (pyUrlparse base).scheme.data
              ++ ':' :: ('/' :: '/' :: ((pyUrlparse base).netloc.data
                ++ ((pyUrlparse base).path.data ++ u.data))) := by
          rw [hub]
          simp [String.data_append, hcolon]
        exact scheme_append_ne hb hw
      · have hw : (unparseBase (pyUrlparse base) ++ dirOfPath (pyUrlparse base) ++ u).data
            = (pyUrlparse base).scheme.data
              ++ ':' :: ('/' :: '/' :: ((pyUrlparse base).netloc.data
                ++ ((dirOfPath (pyUrlparse base)).data ++ u.data))) := by
          rw [hub]
          simp [String.data_append, hcolon]
        exact scheme_append_ne hb hw

theorem processCandidate_fields {base : String} {c : Node} {p : Product}
    (h : processCandidate base c = some p) :
    (base ≠ "" → p.id ≠ "" ∧ p.url ≠ "") ∧
    ((selectIn isPriceElem c).head? = none → p.price = "N/A") ∧
    ((selectIn (fun n => n.tagOf == "img") c).head? = none → p.image_url = none) ∧
    ∀ ie, (selectIn (fun n => n.tagOf == "img") c).head? = some ie →
      (getAttr ie "src" = none → p.image_url = none) ∧
      (getAttr ie "src" = some "" → p.image_url = none) ∧
      ∀ src, getAttr ie "src" = some src → src ≠ "" →
        p.image_url = some (urljoin base src) := by
  simp only [processCandidate] at h
  split at h
  · exact absurd h (by simp)
  · next link hlink =>
    split at h
    · exact absurd h (by simp)
    · next href hhref =>
      injection h with h
      have hid : p.id = extract_product_id (urljoin base href) := by rw [← h]
      have hurl : p.url = urljoin base href := by rw [← h]
      have hprice : p.price = priceOf c := by rw [← h]
      have himgf : p.image_url = imageOf base c := by rw [← h]
      refine ⟨?_, ?_, ?_, ?_⟩
      · intro hb
        constructor
        · rw [hid]
          exact extract_product_id_ne_empty (urljoin_ne_empty hb)
        · rw [hurl]
          exact urljoin_ne_empty hb
      · intro hpe
        rw [hprice]
        unfold priceOf
        rw [hpe]
      · intro hie
        rw [himgf]
        unfold imageOf
        rw [hie]
      · intro ie hie
        have hsel : imageOf base c = imageSrc base ie := by
          unfold imageOf
          rw [hie]
        refine ⟨?_, ?_, ?_⟩
        · intro hsrc
          rw [himgf, hsel]
          unfold imageSrc
          rw [hsrc]
        · intro hsrc
          rw [himgf, hsel]
          unfold imageSrc
          rw [hsrc]
          rfl
        · intro src hsrc hne
          rw [himgf, hsel]
          unfold imageSrc
          rw [hsrc]
          show (if (src == "") = true then none else some (urljoin base src)) =
            some (urljoin base src)
          rw [if_neg (by simpa using hne)]

/-- C3 counterexamples: a candidate whose only anchor bears no text
yields a Product whose `name` is the empty string; an image whose `src`
attribute is present but empty yields `image_url = none` even though a
source attribute exists; with an empty base URL a card whose anchor has
an empty `href` yields a Product with empty `id` and `url`; and against
a relative base URL the joined `image_url` is itself relative (its
parsed scheme is empty), hence not an absolute URL. -/
theorem c3_counterexample :
    extract_products c3doc c3base =
      [⟨"5", "", "N/A", "https://bsgmag.ro/produs/5", none⟩] ∧
    extract_products c3srcDoc c3base =
      [⟨"6", "", "N/A", "https://bsgmag.ro/produs/6", none⟩] ∧
    extract_products c3emptyBaseDoc "" = [⟨"", "", "N/A", "", none⟩] ∧
    extract_products c3relDoc "x/" =
      [⟨"7", "", "N/A", "/produs/7", some "x/y"⟩] ∧
    (pyUrlparse "x/y").scheme = "" :=
  ⟨rfl, rfl, rfl, rfl, rfl⟩

/-- C3 (amended): every extracted Product arises from a candidate
element; when the base URL is non-empty its `id` and `url` are
non-empty; for every candidate that produces it, the `price` field
equals the sentinel "N/A" when no price element is found, and the
`image_url` field is explicitly absent when the candidate has no `img`
descendant, when the first `img` lacks a `src` attribute, or when that
attribute is the empty string (falsy), and otherwise equals the `src`
joined against the base URL — a URL that carries a scheme (is absolute)
whenever the base URL itself does.  The `name` field is present but may
be the empty string. -/
theorem c3_product_fields (doc : Doc) (base : String) :
    ∀ p ∈ extract_products doc base,
      (base ≠ "" → p.id ≠ "" ∧ p.url ≠ "") ∧
      (∃ c ∈ candidateElements doc, processCandidate base c = some p) ∧
      ∀ c, processCandidate base c = some p →
        ((selectIn isPriceElem c).head? = none → p.price = "N/A") ∧
        ((selectIn (fun n => n.tagOf == "img") c).head? = none → p.image_url = none) ∧
        ∀ ie, (selectIn (fun n => n.tagOf == "img") c).head? = some ie →
          (getAttr ie "src" = none → p.image_url = none) ∧
          (getAttr ie "src" = some "" → p.image_url = none) ∧
          ∀ src, getAttr ie "src" = some src → src ≠ "" →
            p.image_url = some (urljoin base src) ∧
            (¬ (pyUrlparse base).scheme = "" →
              ¬ (pyUrlparse (urljoin base src)).scheme = "") := by
  intro p hp
  rw [extract_products, List.mem_filterMap] at hp
  obtain ⟨c0, hc0, hpc0⟩ := hp
  refine ⟨(processCandidate_fields hpc0).1, ⟨c0, hc0, hpc0⟩, ?_⟩
  intro c hpc
  obtain ⟨_, h2, h3, h4⟩ := processCandidate_fields hpc
  refine ⟨h2, h3, ?_⟩
  intro ie hie
  obtain ⟨h5, h6, h7⟩ := h4 ie hie
  refine ⟨h5, h6, ?_⟩
  intro src hsrc hne
  exact ⟨h7 src hsrc hne, fun hb => urljoin_scheme src hb⟩

/-- C3 witness: the amended invariant, evaluated on a concrete page with
an absolute base URL, a product anchor and an image: the extracted
product has non-empty id and url, and its image URL is the joined `src`,
which parses with a non-empty scheme (is absolute). -/
theorem c3_witness :
    c3witP.id ≠ "" ∧ c3witP.url ≠ "" ∧
    c3witP.image_url = some (urljoin c3base "/img/8.jpg") ∧
    ¬ (pyUrlparse (urljoin c3base "/img/8.jpg")).scheme = "" := by
  have h := c3_product_fields c3witDoc c3base c3witP (by decide)
  have h1 := h.1 (by decide)
  have h3 := h.2.2 c3witCard (by rfl)
  have h4 := (h3.2.2 c3witImg (by rfl)).2.2 "/img/8.jpg" (by rfl) (by decide)
  exact ⟨h1.1, h1.2, h4.1, h4.2 (by decide)⟩

/-! ### C8: idempotence of the identity resolver. -/

/-- C8: resolving a URL that is purely a numeric id string returns that
string, so `resolveId` is idempotent on every URL whose resolved id is
numeric. -/
theorem c8_resolve_idempotent (s u : String) :
    (isPyDigit s = true → extract_product_id s = s) ∧
    (isPyDigit (extract_product_id u) = true →
      extract_product_id (extract_product_id u) = extract_product_id u) :=
  ⟨fun h => extract_product_id_digits h, fun h => extract_product_id_digits h⟩

/-- C8 witness: a concrete digit string and a concrete URL with a numeric
final segment. -/
theorem c8_witness :
    extract_product_id c8digits = c8digits ∧
    extract_product_id (extract_product_id c8url) = extract_product_id c8url :=
  ⟨(c8_resolve_idempotent c8digits c8url).1 (by decide),
   (c8_resolve_idempotent c8digits c8url).2 (by decide)⟩

/-! ### C6: page-number derivation. -/

/-- C6 counterexample: the derivation is neither total nor bounded below
by 1 — a non-numeric `page` parameter raises `ValueError` (modelled as
`none`), and a trailing `/p0` yields 0. -/
theorem c6_counterexample :
    get_current_page_number c6urlRaise = none ∧
    get_current_page_number c6urlZero = some 0 ∧ ¬ (1 ≤ (0 : Int)) :=
  ⟨rfl, rfl, by decide⟩

/-- C6 (amended): the page number is the trailing `/pN` value when that
pattern is present (which may be 0), and the computation returns the
default 1 whenever the URL has no trailing `/pN` segment and neither a
`page` nor a `pag` query parameter; with a non-numeric `page`/`pag`
parameter it raises instead of defaulting. -/
theorem c6_page_number_default (url : String) :
    (splitTrailingP url = none →
      firstParam (pyUrlparse url).query "page" = none →
      firstParam (pyUrlparse url).query "pag" = none →
      get_current_page_number url = some 1) ∧
    (∀ pre ds sl, splitTrailingP url = some (pre, ds, sl) →
      get_current_page_number url = some (Int.ofNat (digitsVal ds))) := by
  constructor
  · intro h1 h2 h3
    simp [get_current_page_number, h1, h2, h3]
  · intro pre ds sl h
    simp [get_current_page_number, h]

/-- C6 witness: the default and the `/pN` branches at concrete URLs. -/
theorem c6_witness :
    get_current_page_number c6urlPlain = some 1 ∧
    get_current_page_number c6urlP5 = some 5 :=
  ⟨(c6_page_number_default c6urlPlain).1 rfl rfl rfl,
   (c6_page_number_default c6urlP5).2
     ("https://bsgmag.ro/catalog/produse-recente".data) ['5'] false rfl⟩

/-! ### C1 and C2: pagination resolver ordering and next-URL inequality. -/

theorem stripOneSlash_recon (r : List Char) :
    r = (if (stripOneSlash r).2 then ['/'] else []) ++ (stripOneSlash r).1 := by
  cases r with
  | nil => rfl
  | cons c rest =>
    by_cases hc : (c == '/') = true
    · have hc2 : c = '/' := by simpa using hc
      subst hc2
      rfl
    · simp [stripOneSlash, hc]

theorem splitTrailingP_spec {u : String} {pre ds : List Char} {sl : Bool}
    (h : splitTrailingP u = some (pre, ds, sl)) :
    u.data = pre ++ '/' :: 'p' :: (ds ++ (if sl then ['/'] else [])) ∧
    ds ≠ [] ∧ ∀ c ∈ ds, c.isDigit = true := by
  rcases hso : stripOneSlash u.data.reverse with ⟨rest, sl2⟩
  simp only [splitTrailingP, hso] at h
  split at h
  · exact absurd h (by simp)
  · next hne =>
    split at h
    · next prer heq2 =>
      rw [Option.some.injEq, Prod.mk.injEq, Prod.mk.injEq] at h
      obtain ⟨h1, h2, h3⟩ := h
      subst h1
      subst h2
      subst h3
      have hrecon := stripOneSlash_recon u.data.reverse
      rw [hso] at hrecon
      have hrest : rest = rest.takeWhile Char.isDigit ++ ('p' :: '/' :: prer) := by
        conv_lhs => rw [← List.takeWhile_append_dropWhile (p := Char.isDigit) (l := rest)]
        rw [heq2]
      refine ⟨?_, ?_, ?_⟩
      · have h4 := congrArg List.reverse hrecon
        rw [List.reverse_reverse] at h4
        rw [h4]
        conv_lhs => rw [hrest]
        cases sl2 <;> simp [List.reverse_append, List.append_assoc]
      · intro e
        rw [List.reverse_eq_nil_iff] at e
        rw [e] at hne
        simp at hne
      · intro c hc
        exact List.mem_takeWhile_imp (List.mem_reverse.mp hc)
    · exact absurd h (by simp)

theorem rstripSlash_decomp (l : List Char) :
    ∃ k, l = rstripSlash l ++ List.replicate k '/' := by
  refine ⟨(l.reverse.takeWhile (fun c => c == '/')).length, ?_⟩
  conv_lhs => rw [← List.reverse_reverse l,
    ← List.takeWhile_append_dropWhile (p := fun c => c == '/') (l := l.reverse)]
  rw [List.reverse_append]
  unfold rstripSlash
  congr 1
  have hall : ∀ x ∈ l.reverse.takeWhile (fun c => c == '/'), x = '/' := by
    intro x hx
    have hx2 := List.mem_takeWhile_imp hx
    simpa using hx2
  rw [List.eq_replicate_of_mem hall, List.reverse_replicate, List.length_replicate]

theorem scanPageLinks_page {cur : String} {cp : Int} :
    ∀ {ls : List Node} {u : String}, scanPageLinks cur cp ls = Except.ok (some u) →
      get_current_page_number u = some (cp + 1) := by
  intro ls
  induction ls with
  | nil => intro u h; exact absurd h (by simp [scanPageLinks])
  | cons l rest ih =>
    intro u h
    simp only [scanPageLinks] at h
    split at h
    · exact ih h
    · split at h
      · exact absurd h (by simp)
      · next n hn =>
        split at h
        · next hneq =>
          injection h with h
          injection h with h
          rw [← h, hn]
          have hn2 : n = cp + 1 := by simpa using hneq
          rw [hn2]
        · exact ih h

theorem synthNext_ne {cur : String} {cp : Int} {nxt : String}
    (hcp : get_current_page_number cur = some cp)
    (h : synthNext cur cp = some nxt) : nxt ≠ cur := by
  unfold synthNext at h
  split at h
  · next pre ds0 sl heq =>
    injection h with h
    rw [get_current_page_number, heq] at hcp
    injection hcp with hcp
    have hcp2 : ((digitsVal ds0 : Int)) = cp := hcp
    obtain ⟨hu, hne, hdig⟩ := splitTrailingP_spec heq
    have hrepr : pyIntRepr (cp + 1) = natDigits (digitsVal ds0 + 1) := by
      rw [← hcp2]
      have hpos : ¬ (((digitsVal ds0 : Int)) + 1 < 0) := by omega
      unfold pyIntRepr
      rw [if_neg hpos]
      congr 1
    intro e
    have hdata : pre ++ '/' :: 'p' :: natDigits (digitsVal ds0 + 1) = cur.data := by
      rw [← hrepr]
      have h6 : nxt.data = pre ++ '/' :: 'p' :: pyIntRepr (cp + 1) := by rw [← h]
      rw [← h6, e]
    rw [hu] at hdata
    have hnd : natDigits (digitsVal ds0 + 1) = ds0 ++ (if sl then ['/'] else []) := by
      have h5 := List.append_cancel_left hdata
      simp only [List.cons.injEq] at h5
      exact h5.2.2
    obtain ⟨hval, hneN, hdigN⟩ := natDigits_spec (digitsVal ds0 + 1)
    cases sl with
    | true =>
      simp only [if_pos] at hnd
      have hmem : '/' ∈ natDigits (digitsVal ds0 + 1) := by
        rw [hnd]
        simp
      have hd2 := hdigN '/' hmem
      exact absurd hd2 (by decide)
    | false =>
      simp at hnd
      rw [hnd] at hval
      omega
  · split at h
    · injection h with h
      intro e
      obtain ⟨k, hk⟩ := rstripSlash_decomp cur.data
      have hdata : rstripSlash cur.data ++ ['/', 'p', '2'] = cur.data := by
        have h6 : nxt.data = rstripSlash cur.data ++ ['/', 'p', '2'] := by rw [← h]
        rw [← h6, e]
      nth_rewrite 2 [hk] at hdata
      have h3 := List.append_cancel_left hdata
      have hk3 : k = 3 := by
        have h4 := congrArg List.length h3
        simpa using h4.symm
      rw [hk3] at h3
      exact absurd h3 (by decide)
    · exact absurd h (by simp)

/-- C2 counterexample: on a page whose explicit next anchor's `href` is
the current URL itself, `find_next_page` returns a URL equal to the input
`currentUrl` (which is why the traversal driver separately guards against
`next_url == current_url`). -/
theorem c2_counterexample :
    find_next_page c2doc c2cur = Except.ok (some c2cur) := rfl

/-- C2 (amended): whenever the returned next URL does not come from an
explicit-next or label-matched anchor — that is, strategies 1 and 2
matched no anchor, so the result comes from numeric inference or URL
synthesis — it differs from the input `currentUrl`.  An anchor matched by
strategy 1 or 2 can, however, resolve back to `currentUrl` itself; the
traversal driver detects that equality and stops. -/
theorem c2_next_url (doc : Doc) (cur nxt : String)
    (h : find_next_page doc cur = Except.ok (some nxt))
    (h1 : explicitNextLink doc = none) (h2 : labelNextLink doc = none) :
    ¬ nxt = cur := by
  unfold find_next_page at h
  cases hcp : get_current_page_number cur with
  | none =>
    rw [hcp] at h
    exact absurd h (by simp)
  | some cp =>
    rw [hcp] at h
    simp only [h1, h2] at h
    cases hscan : scanPageLinks cur cp (pageLinks doc) with
    | error e =>
      rw [hscan] at h
      exact absurd h (by simp)
    | ok onu =>
      cases onu with
      | some u =>
        rw [hscan] at h
        simp only [Except.ok.injEq, Option.some.injEq] at h
        have hpage := scanPageLinks_page hscan
        intro e
        rw [h, e, hcp] at hpage
        injection hpage with hpage
        omega
      | none =>
        rw [hscan] at h
        simp only [Except.ok.injEq] at h
        exact synthNext_ne hcp h

/-- C2 witness: with no pagination markup at all and a current URL ending
in `/p2`, the resolver synthesizes `/p3`, which differs from the input. -/
theorem c2_witness :
    ¬ ("https://bsgmag.ro/catalog/produse-recente/p3" : String) = c2p2 :=
  c2_next_url c2emptyDoc c2p2 "https://bsgmag.ro/catalog/produse-recente/p3" rfl rfl rfl

/-- C1 counterexample: a page whose explicit-next anchor (strategy 1)
has no `href`, while the pagination block holds a link resolving to page
`current + 1`.  The spec's order would fall through to strategy 3 and
return the `?page=2` link, but the code skips the numeric scan entirely
once strategy 1 has matched any anchor, and returns the synthesized
`/p2` URL instead. -/
theorem c1_counterexample :
    explicitNextLink c1doc = some c1NextAnchor ∧
    getAttr c1NextAnchor "href" = none ∧
    labelNextLink c1doc = none ∧
    get_current_page_number c1cur = some 1 ∧
    scanPageLinks c1cur 1 (pageLinks c1doc) =
      Except.ok (some "https://bsgmag.ro/catalog/produse-recente?page=2") ∧
    find_next_page c1doc c1cur =
      Except.ok (some "https://bsgmag.ro/catalog/produse-recente/p2") ∧
    ¬ ("https://bsgmag.ro/catalog/produse-recente/p2" : String) =
      "https://bsgmag.ro/catalog/produse-recente?page=2" :=
  ⟨rfl, rfl, rfl, rfl, rfl, rfl, by decide⟩

/-- C1 (amended): the resolver tries the strategies in the spec's order
with one correction — the numeric-inference scan (strategy 3) runs only
when strategies 1 and 2 match no anchor at all.  When strategy 1 (or 2)
matches an anchor, a usable `href` is returned directly; an anchor
without a usable `href` skips numeric inference and falls through to URL
synthesis (strategy 5). -/
theorem c1_strategy_order (doc : Doc) (cur : String) (cp : Int)
    (hcp : get_current_page_number cur = some cp) :
    (explicitNextLink doc = none → labelNextLink doc = none →
      find_next_page doc cur =
        (match scanPageLinks cur cp (pageLinks doc) with
         | Except.error e => Except.error e
         | Except.ok (some u) => Except.ok (some u)
         | Except.ok none => Except.ok (synthNext cur cp))) ∧
    (∀ l h, explicitNextLink doc = some l → getAttr l "href" = some h → ¬ h = "" →
      find_next_page doc cur = Except.ok (some (urljoin cur h))) ∧
    (∀ l, explicitNextLink doc = some l →
      (getAttr l "href" = none ∨ getAttr l "href" = some "") →
      find_next_page doc cur = Except.ok (synthNext cur cp)) ∧
    (∀ l h, explicitNextLink doc = none → labelNextLink doc = some l →
      getAttr l "href" = some h → ¬ h = "" →
      find_next_page doc cur = Except.ok (some (urljoin cur h))) ∧
    (∀ l, explicitNextLink doc = none → labelNextLink doc = some l →
      (getAttr l "href" = none ∨ getAttr l "href" = some "") →
      find_next_page doc cur = Except.ok (synthNext cur cp)) := by
  refine ⟨?_, ?_, ?_, ?_, ?_⟩
  · intro h1 h2
    simp only [find_next_page, hcp, h1, h2]
  · intro l h h1 h2 h3
    have hbe : (h == "") = false := beq_eq_false_iff_ne.mpr h3
    simp only [find_next_page, hcp, h1, h2, hbe, Bool.false_eq_true, if_false]
  · intro l h1 h2
    rcases h2 with h2 | h2 <;> simp [find_next_page, hcp, h1, h2]
  · intro l h h1 h2 h3 h4
    have hbe : (h == "") = false := beq_eq_false_iff_ne.mpr h4
    simp only [find_next_page, hcp, h1, h2, h3, hbe, Bool.false_eq_true, if_false]
  · intro l h1 h2 h3
    rcases h3 with h3 | h3 <;> simp [find_next_page, hcp, h1, h2, h3]

/-- C1 witness: with no anchors at all, the resolver falls through to the
numeric scan and then to synthesis, incrementing the trailing `/p2`. -/
theorem c1_witness :
    find_next_page c2emptyDoc c2p2 =
      Except.ok (some "https://bsgmag.ro/catalog/produse-recente/p3") :=
  (c1_strategy_order c2emptyDoc c2p2 2 rfl).1 rfl rfl

/-- C10 witness: a single product with a 4001-character name makes the
message over-length, and the notifier reports success even when every
delivery fails. -/
theorem c10_witness :
    (send_product_notification (fun _ => false) [bigP]).1 = true := by
  have hb : bigP.name.length = 4001 := by
    show (List.replicate 4001 'a').length = 4001
    exact List.length_replicate _ _
  have hlen : 4000 < (notificationMessage [bigP]).length := by
    simp only [notificationMessage, productLines, formatProductLine, String.length_append,
      String.append_empty, List.length_cons, List.length_nil]
    omega
  rw [(c10_notifier (fun _ => false) [bigP]).2 rfl hlen]

end BSG
